import Mathlib

/-!
# Verification of the qrxfer-web transfer protocol engine

A shallow embedding of the QR transfer protocol implemented in
`src/utils/qrProtocol.ts` (class `QRProtocol`) and the receiver state
machine in `src/components/Receiver.tsx`.

Byte buffers (`ArrayBuffer` / `Uint8Array`) are modelled as `List Nat`
with every entry `< 256`; JavaScript strings are Lean `String`s.
The browser primitives `btoa` / `atob` (binary-to-base64 and back) and
`crypto.subtle.digest` with algorithm SHA-1 are platform builtins, not
repository code; they are modelled here by faithful implementations of
their published specifications (RFC 4648 base64 and FIPS 180 SHA-1),
restricted where noted to the inputs the repository's code can produce.
-/

set_option maxRecDepth 20000

namespace QrXfer

/-! ## Base64 (model of the browser's btoa / atob) -/

/-- The base64 alphabet: sextet value to character, per RFC 4648 §4
(the table used by the browser's `btoa`). -/
def b64Char (n : Nat) : Char :=
  if n < 26 then Char.ofNat (65 + n)
  else if n < 52 then Char.ofNat (97 + (n - 26))
  else if n < 62 then Char.ofNat (48 + (n - 52))
  else if n = 62 then '+'
  else '/'

/-- Inverse alphabet lookup: character to sextet value, `none` for a
character outside the base64 alphabet. -/
def b64Val (c : Char) : Option Nat :=
  if 65 ≤ c.toNat ∧ c.toNat ≤ 90 then some (c.toNat - 65)
  else if 97 ≤ c.toNat ∧ c.toNat ≤ 122 then some (26 + (c.toNat - 97))
  else if 48 ≤ c.toNat ∧ c.toNat ≤ 57 then some (52 + (c.toNat - 48))
  else if c = '+' then some 62
  else if c = '/' then some 63
  else none

/-- Model of `btoa(String.fromCharCode(...bytes))`: standard base64
encoding of a byte sequence, with `=` padding.  Three input bytes become
four sextet characters; a final group of one or two bytes is padded. -/
def base64EncodeList : List Nat → List Char
  | [] => []
  | [b0] => [b64Char (b0 / 4), b64Char (b0 % 4 * 16), '=', '=']
  | [b0, b1] => [b64Char (b0 / 4), b64Char (b0 % 4 * 16 + b1 / 16),
                 b64Char (b1 % 16 * 4), '=']
  | b0 :: b1 :: b2 :: rest =>
      b64Char (b0 / 4) :: b64Char (b0 % 4 * 16 + b1 / 16) ::
      b64Char (b1 % 16 * 4 + b2 / 64) :: b64Char (b2 % 64) ::
      base64EncodeList rest

/-- Decode one full four-character base64 group (no padding allowed)
into three bytes; `none` when any character is outside the alphabet. -/
def b64Group (c0 c1 c2 c3 : Char) : Option (List Nat) :=
  match b64Val c0, b64Val c1, b64Val c2, b64Val c3 with
  | some v0, some v1, some v2, some v3 =>
      some [v0 * 4 + v1 / 16, v1 % 16 * 16 + v2 / 4, v2 % 4 * 64 + v3]
  | _, _, _, _ => none

/-- Decode the final four-character base64 group, which may carry `=`
padding: `xx==` yields one byte, `xxx=` two, `xxxx` three. -/
def b64FinalGroup (c0 c1 c2 c3 : Char) : Option (List Nat) :=
  if c2 = '=' ∧ c3 = '=' then
    match b64Val c0, b64Val c1 with
    | some v0, some v1 => some [v0 * 4 + v1 / 16]
    | _, _ => none
  else if c3 = '=' then
    match b64Val c0, b64Val c1, b64Val c2 with
    | some v0, some v1, some v2 =>
        some [v0 * 4 + v1 / 16, v1 % 16 * 16 + v2 / 4]
    | _, _, _ => none
  else b64Group c0 c1 c2 c3

/-- Model of the browser's `atob` on the canonical strings its own
encoder produces: full four-character groups, `=` padding only in the
final group, `none` (an `InvalidCharacterError` in the browser)
otherwise.  Leftover bits of a padded final group are discarded, as in
the forgiving-base64 decode the browser implements.  The whitespace and
missing-padding tolerance of forgiving-base64 is not modelled: the
repository only ever decodes strings produced by its own encoder. -/
def base64DecodeList : List Char → Option (List Nat)
  | [] => some []
  | c0 :: c1 :: c2 :: c3 :: rest =>
      if rest = [] then b64FinalGroup c0 c1 c2 c3
      else (b64Group c0 c1 c2 c3).bind fun g =>
        (base64DecodeList rest).map fun bs => g ++ bs
  | _ => none

/-! ## Byte-level chunking

`QRProtocol.chunkData` (transfer.ts lines 326-337) iterates
`for (let i = 0; i < uint8Array.length; i += chunkSize)` taking the
slice `[i, i + chunkSize)` each time.  The loop is modelled by
structural recursion with a fuel counter so that the function reduces
in the kernel; the fuel is the buffer length, which bounds the number
of iterations whenever `chunkSize ≥ 1`.  For `chunkSize = 0` the
JavaScript loop does not terminate; every claim about `chunkData`
assumes `chunkSize ≥ 1` and the model returns `[]` there. -/

/-- Fuel-indexed worker for the chunking loop of `chunkData`. -/
def chunkBytesGo : Nat → List Nat → Nat → List (List Nat)
  | _, [], _ => []
  | 0, _ :: _, _ => []
  | fuel + 1, a :: t, s => (a :: t).take s :: chunkBytesGo fuel ((a :: t).drop s) s

/-- The byte slices `uint8Array.slice(i, i + chunkSize)` produced by the
loop of `QRProtocol.chunkData`, in order. -/
def chunkBytes (l : List Nat) (s : Nat) : List (List Nat) :=
  if s = 0 then [] else chunkBytesGo l.length l s

/-- `QRProtocol.chunkData` (transfer.ts lines 326-337): split the buffer
into slices of `chunkSize` bytes and base64-encode each slice with
`btoa(String.fromCharCode(...chunk))`. -/
def chunkData (data : List Nat) (chunkSize : Nat) : List String :=
  (chunkBytes data chunkSize).map (fun c => String.mk (base64EncodeList c))

/-! ## SHA-1 (model of crypto.subtle.digest with algorithm SHA-1)

`QRProtocol.calculateHash` and `QRProtocol.verifyIntegrity` delegate the
digest itself to the browser's `crypto.subtle.digest('SHA-1', data)`; the
hex rendering (`b.toString(16).padStart(2, '0')` joined) is the
repository's own code.  SHA-1 is modelled from FIPS 180 over `Nat` with
explicit reduction modulo `2^32`. -/

/-- Truncation to a 32-bit word. -/
def w32 (n : Nat) : Nat := n % 4294967296

/-- Left rotation of a 32-bit word by `s` bits. -/
def rotl32 (s x : Nat) : Nat := x % 2 ^ (32 - s) * 2 ^ s + x / 2 ^ (32 - s)

/-- Big-endian 4-byte groups to 32-bit words. -/
def toWords : List Nat → List Nat
  | b0 :: b1 :: b2 :: b3 :: rest =>
      (b0 * 16777216 + b1 * 65536 + b2 * 256 + b3) :: toWords rest
  | _ => []

/-- SHA-1 message padding: a `0x80` byte, zeros to 56 mod 64, then the
bit length as a 64-bit big-endian integer. -/
def sha1PadBytes (msg : List Nat) : List Nat :=
  let ml := 8 * msg.length
  msg ++ 128 :: List.replicate ((119 - msg.length % 64) % 64) 0 ++
    [ml / 2 ^ 56 % 256, ml / 2 ^ 48 % 256, ml / 2 ^ 40 % 256, ml / 2 ^ 32 % 256,
     ml / 2 ^ 24 % 256, ml / 2 ^ 16 % 256, ml / 2 ^ 8 % 256, ml % 256]

/-- One step of the SHA-1 message-schedule extension: append
`rotl1(w[i-3] xor w[i-8] xor w[i-14] xor w[i-16])`. -/
def extendStep (ws : List Nat) : List Nat :=
  ws ++ [rotl32 1 ((ws.getD (ws.length - 3) 0) ^^^ (ws.getD (ws.length - 8) 0)
       ^^^ (ws.getD (ws.length - 14) 0) ^^^ (ws.getD (ws.length - 16) 0))]

/-- The SHA-1 round function, by round number. -/
def sha1F (i b c d : Nat) : Nat :=
  if i < 20 then (b &&& c) ||| ((4294967295 - b) &&& d)
  else if i < 40 then b ^^^ c ^^^ d
  else if i < 60 then (b &&& c) ||| (b &&& d) ||| (c &&& d)
  else b ^^^ c ^^^ d

/-- The SHA-1 round constants, by round number. -/
def sha1K (i : Nat) : Nat :=
  if i < 20 then 1518500249 else if i < 40 then 1859775393
  else if i < 60 then 2400959708 else 3395469782

/-- SHA-1 compression of one 64-byte block into the running state. -/
def sha1Compress (h : Nat × Nat × Nat × Nat × Nat) (block : List Nat) :
    Nat × Nat × Nat × Nat × Nat :=
  let ws := extendStep^[64] (toWords block)
  let r := ws.enum.foldl (fun st p =>
    let t := w32 (rotl32 5 st.1 + sha1F p.1 st.2.1 st.2.2.1 st.2.2.2.1 +
      st.2.2.2.2 + sha1K p.1 + p.2)
    (t, st.1, rotl32 30 st.2.1, st.2.2.1, st.2.2.2.1)) h
  (w32 (h.1 + r.1), w32 (h.2.1 + r.2.1), w32 (h.2.2.1 + r.2.2.1),
   w32 (h.2.2.2.1 + r.2.2.2.1), w32 (h.2.2.2.2 + r.2.2.2.2))

/-- A 32-bit word as four big-endian bytes. -/
def wordBytes (w : Nat) : List Nat :=
  [w / 16777216 % 256, w / 65536 % 256, w / 256 % 256, w % 256]

/-- SHA-1 digest of a byte sequence, as 20 bytes. -/
def sha1 (msg : List Nat) : List Nat :=
  let r := (chunkBytes (sha1PadBytes msg) 64).foldl sha1Compress
    (1732584193, 4023233417, 2562383102, 271733878, 3285377520)
  wordBytes r.1 ++ wordBytes r.2.1 ++ wordBytes r.2.2.1 ++
    wordBytes r.2.2.2.1 ++ wordBytes r.2.2.2.2

/-- Model of `n.toString(16)` for one hex digit: lowercase. -/
def hexDigit (n : Nat) : Char :=
  if n < 10 then Char.ofNat (48 + n) else Char.ofNat (87 + n)

/-- One byte as two lowercase hex characters, the repository's
`b.toString(16).padStart(2, '0')`. -/
def byteToHex (b : Nat) : List Char := [hexDigit (b / 16), hexDigit (b % 16)]

/-- `QRProtocol.calculateHash` (transfer.ts lines 339-346): SHA-1 of the
buffer rendered as a 40-character lowercase hex string. -/
def calculateHash (data : List Nat) : String :=
  String.mk ((sha1 data).flatMap byteToHex)

/-- `QRProtocol.verifyIntegrity` (transfer.ts lines 442-451): recompute
the SHA-1 hex digest over the data and compare it with `expectedHash`
using JavaScript `===`, a case-sensitive exact string comparison. -/
def verifyIntegrity (data : List Nat) (expectedHash : String) : Bool :=
  calculateHash data == expectedHash


/-! ## Per-chunk decoding, as done by reconstructData

`QRProtocol.reconstructData` maps `atob` over the sorted chunk payloads;
the browser throws `InvalidCharacterError` on the first invalid payload,
which aborts the whole reconstruction.  `atobAll` is that map with the
exception modelled as `none`. -/

/-- Decode every payload in order; `none` as soon as one fails. -/
def atobAll : List String → Option (List (List Nat))
  | [] => some []
  | d :: rest =>
      match base64DecodeList d.data, atobAll rest with
      | some b, some bs => some (b :: bs)
      | _, _ => none


/-! ## Wire-format strings

The protocol markers and the message grammar of `QRProtocol`
(transfer.ts lines 322-325 and 358-411). -/

/-- Begin marker (transfer.ts line 322). -/
def MESSAGE_BEGIN : String := "-----BEGIN XFER MESSAGE-----"

/-- End marker (transfer.ts line 323). -/
def MESSAGE_END : String := "-----END XFER MESSAGE-----"

/-- Header-begin marker (transfer.ts line 324). -/
def HEADER_BEGIN : String := "-----BEGIN XFER HEADER-----"

/-- Header-end marker (transfer.ts line 325). -/
def HEADER_END : String := "-----END XFER HEADER-----"

/-- Model of JavaScript `String.prototype.startsWith`. -/
def startsWith (p s : String) : Bool := p.data.isPrefixOf s.data

/-- Decimal digit character for a value below 10. -/
def digitChar (d : Nat) : Char := Char.ofNat (48 + d)

/-- Numeric value of a decimal digit character. -/
def digitVal (c : Char) : Nat := c.toNat - 48

/-- Value of a big-endian string of decimal digits, as `parseInt` reads
an all-digit run. -/
def decToNat (cs : List Char) : Nat := cs.foldl (fun a c => 10 * a + digitVal c) 0

/-- Fuel-indexed worker for the decimal rendering of a natural number;
the fuel, instantiated with the number itself, bounds the recursion
depth (dividing by 10 at each step). -/
def natToDecGo : Nat → Nat → List Char
  | _, 0 => []
  | 0, _ + 1 => []
  | fuel + 1, n + 1 =>
      natToDecGo fuel ((n + 1) / 10) ++ [digitChar ((n + 1) % 10)]

/-- Model of JavaScript `Number.prototype.toString()` on a natural
number: its decimal rendering, most significant digit first. -/
def natToDec (n : Nat) : List Char := if n = 0 then ['0'] else natToDecGo n n

/-- Model of `String.prototype.padStart(width, c)`. -/
def padStart (cs : List Char) (width : Nat) (c : Char) : List Char :=
  List.replicate (width - cs.length) c ++ cs

/-- `QRProtocol.createDataMessage` (transfer.ts lines 358-360): the
sequence number rendered in decimal, zero-padded to width 10, a colon,
then the payload verbatim. -/
def createDataMessage (sequence : Nat) (data : String) : String :=
  String.mk (padStart (natToDec sequence) 10 '0' ++ ':' :: data.data)

/-- The four ECMAScript LineTerminator characters, which `.` in a
regular expression without the `s` flag does not match. -/
def isLineTerm (c : Char) : Bool :=
  c = '\n' || c = '\r' || c = Char.ofNat 8232 || c = Char.ofNat 8233

/-- Test of the regular expression `/^(\d{10}):(.+)$/` used by
`parseMessage` and `parseDataChunk`: exactly ten ASCII digits, a colon,
then at least one further character with no line terminator among them
(`.` matches no line terminator and `$` anchors at the very end). -/
def chunkPattern (message : String) : Bool :=
  decide ((message.data.take 10).length = 10) &&
  (message.data.take 10).all Char.isDigit &&
  ((message.data.drop 10).headD ' ' == ':') &&
  !(message.data.drop 11).isEmpty &&
  (message.data.drop 11).all (fun c => !isLineTerm c)

/-- The message kinds of the `TransferMessage` union
(types/transfer.ts lines 11-14). -/
inductive MsgType
  | header
  | chunk
  | endMarker
deriving DecidableEq, Repr

/-- `TransferMessage` (types/transfer.ts lines 11-14). -/
structure TransferMessage where
  type : MsgType
  content : String
deriving DecidableEq, Repr

/-- `TransferChunk` (types/transfer.ts lines 1-4). -/
structure TransferChunk where
  sequence : Nat
  data : String
deriving DecidableEq, Repr

/-- `QRProtocol.parseMessage` (transfer.ts lines 362-382): classify one
scanned string, `none` for anything unrecognized. -/
def parseMessage (message : String) : Option TransferMessage :=
  if message == MESSAGE_BEGIN || message == MESSAGE_END then
    some ⟨if message == MESSAGE_BEGIN then .header else .endMarker, message⟩
  else if message == HEADER_BEGIN || message == HEADER_END then
    some ⟨.header, message⟩
  else if startsWith "LEN:" message || startsWith "HASH:" message then
    some ⟨.header, message⟩
  else if chunkPattern message then
    some ⟨.chunk, message⟩
  else none

/-- `QRProtocol.parseDataChunk` (transfer.ts lines 384-392): match
`/^(\d{10}):(.+)$/`, read the ten digits with `parseInt`, return the
remainder as the payload. -/
def parseDataChunk (message : String) : Option TransferChunk :=
  if chunkPattern message then
    some ⟨decToNat (message.data.take 10), String.mk (message.data.drop 11)⟩
  else none

/-- ASCII whitespace skipped by `parseInt` (with no-break space; enough
for every string this repository can feed it). -/
def jsSpace (c : Char) : Bool :=
  c = ' ' || c = '\t' || c = '\n' || c = '\r' || c = Char.ofNat 11 ||
  c = Char.ofNat 12 || c = Char.ofNat 160

/-- Model of JavaScript `parseInt(s, 10)`: skip leading whitespace, an
optional sign, then the maximal run of decimal digits; `NaN` (modelled
as `none`) when that run is empty. -/
def parseIntB10 (s : String) : Option Int :=
  let core := fun (sign : Int) (t : List Char) =>
    let ds := t.takeWhile Char.isDigit
    if ds.isEmpty then none else some (sign * (decToNat ds : Int))
  match s.data.dropWhile jsSpace with
  | '-' :: t => core (-1) t
  | '+' :: t => core 1 t
  | t => core 1 t

/-- Fuel-free worker of `splitColon`: accumulate the current piece
(reversed) until a colon or the end. -/
def splitColonGo (acc : List Char) : List Char → List (List Char)
  | [] => [acc.reverse]
  | ':' :: t => acc.reverse :: splitColonGo [] t
  | c :: t => splitColonGo (c :: acc) t

/-- Model of JavaScript `message.split(":")`: the pieces between
colons. -/
def splitColon (cs : List Char) : List (List Char) := splitColonGo [] cs

/-- `TransferHeader` (types/transfer.ts lines 6-9); `length` is the
JavaScript number stored by `parseHeader`, positive when stored. -/
structure TransferHeader where
  length : Int
  hash : String
deriving DecidableEq, Repr

/-- The loop body of `QRProtocol.parseHeader` (transfer.ts lines
398-404): keep the last `LEN:` value (`parseInt` of the text after the
first colon, `none` for NaN) and the last `HASH:` value. -/
def parseHeaderFold (acc : Option Int × String) (message : String) :
    Option Int × String :=
  if startsWith "LEN:" message then
    (parseIntB10 (String.mk ((splitColon message.data).getD 1 [])), acc.2)
  else if startsWith "HASH:" message then
    (acc.1, String.mk ((splitColon message.data).getD 1 []))
  else acc

/-- `QRProtocol.parseHeader` (transfer.ts lines 394-411): fold
`parseHeaderFold` over the messages, then return a header only when the
final length is positive and the hash nonempty (JavaScript truthiness
of a string). -/
def parseHeader (headerMessages : List String) : Option TransferHeader :=
  match headerMessages.foldl parseHeaderFold (some 0, "") with
  | (some n, hash) => if 0 < n ∧ hash ≠ "" then some ⟨n, hash⟩ else none
  | (none, _) => none

/-! ## Reassembly -/

/-- The ordering induced by the JavaScript comparator
`(a, b) => a.sequence - b.sequence` used by both sorts. -/
def seqLE (a b : TransferChunk) : Prop := a.sequence ≤ b.sequence

instance : DecidableRel seqLE := fun a b => Nat.decLe a.sequence b.sequence

/-- Model of `Array.prototype.sort` with comparator
`(a, b) => a.sequence - b.sequence`: a permutation sorted by sequence
number.  The engine only ever sorts lists whose sequence numbers are
pairwise distinct, where every sorted permutation is the same list, so
the choice of a stable sort is immaterial. -/
def sortChunks (chunks : List TransferChunk) : List TransferChunk :=
  List.insertionSort seqLE chunks

/-- `QRProtocol.reconstructData` (transfer.ts lines 413-440):
`chunks.sort(...)` sorts the caller's array IN PLACE and returns that
same array, so the model returns the new content of the argument array
alongside the result; each payload is then decoded with `atob` (a
failure, `none`, models the thrown `InvalidCharacterError`) and the
decoded spans are concatenated in order. -/
def reconstructData (chunks : List TransferChunk) :
    List TransferChunk × Option (List Nat) :=
  let sorted := sortChunks chunks
  (sorted, (atobAll (sorted.map TransferChunk.data)).map List.flatten)

/-- The chunk list a sender produces from a buffer: the i-th payload of
`chunkData` paired with sequence number i (Sender.tsx lines 56-64 and
`createDataMessage`). -/
def senderChunkList (bs : List Nat) (s : Nat) : List TransferChunk :=
  (chunkData bs s).enum.map (fun p => ⟨p.1, p.2⟩)

/-! ## The receiver session (Receiver.tsx)

The React state and refs that the scan path reads and writes, as one
record, and `processQRCode` as a pure transition on it.  Successive
`setX(prev => ...)` updates within one call are applied in order;
camera, timers and UI rendering are outside the engine and omitted. -/

/-- `TransferProgress` (types/transfer.ts lines 16-23).  `totalChunks`
is the JavaScript number copied from the header's `length`. -/
structure TransferProgress where
  totalChunks : Int
  receivedChunks : Nat
  missingChunks : List Nat
  currentChunk : Nat
  isComplete : Bool
  hash : Option String
deriving DecidableEq, Repr

/-- The `TransferStatus` values (types/transfer.ts lines 43-53). -/
inductive Status
  | idle
  | preparing
  | sending
  | receiving
  | completed
  | error
  | paused
deriving DecidableEq, Repr

/-- The receiver-session state: `status`, `progress`, `chunks`,
`header`, `errorMessage`, `receivedSequences` (the `Set<number>`,
modelled by its membership list in insertion order), and the two header
refs (Receiver.tsx lines 12-43). -/
structure RxState where
  status : Status
  progress : TransferProgress
  chunks : List TransferChunk
  header : Option TransferHeader
  errorMessage : String
  receivedSequences : List Nat
  headerMessages : List String
  isReceivingHeader : Bool
deriving DecidableEq, Repr

/-- The `useState` initializers of Receiver.tsx lines 12-20. -/
def initialProgress : TransferProgress :=
  ⟨0, 0, [], 0, false, none⟩

/-- The receiver state when the component mounts. -/
def initialState : RxState :=
  ⟨.idle, initialProgress, [], none, "", [], [], false⟩

/-- `resetReceiver` (Receiver.tsx lines 512-528). -/
def resetReceiver (s : RxState) : RxState :=
  { s with
    chunks := [], header := none, progress := initialProgress,
    receivedSequences := [], headerMessages := [],
    isReceivingHeader := false, errorMessage := "", status := .idle }

/-- `completeTransfer` (Receiver.tsx lines 472-498): guard on a missing
header or empty chunk list (error message only, no status change), then
reconstruct — the in-place sort inside `reconstructData` reorders the
stored `chunks` array — and verify: `Completed` on a digest match,
`Error` with a message otherwise; a decode failure is caught and
reported as `Error reconstructing file`. -/
def completeTransfer (s : RxState) : RxState :=
  match s.header with
  | none => { s with errorMessage := "No data received" }
  | some h =>
      if s.chunks.isEmpty then { s with errorMessage := "No data received" }
      else
        match reconstructData s.chunks with
        | (sorted, some buf) =>
            if verifyIntegrity buf h.hash then
              { s with
                chunks := sorted, status := .completed,
                progress := { s.progress with isComplete := true } }
            else
              { s with
                chunks := sorted, status := .error,
                errorMessage := "Data integrity check failed!" }
        | (sorted, none) =>
            { s with
              chunks := sorted, status := .error,
              errorMessage := "Error reconstructing file" }

/-- `processQRCode` (Receiver.tsx lines 395-470): the per-scan
transition of the receiver session.  An unparsable message returns the
state unchanged; `MESSAGE_END` runs `completeTransfer` only when at
least one chunk is stored; a data chunk already in
`receivedSequences` is ignored; a new one is inserted (the stored list
is kept sorted), its sequence recorded, and the missing set recomputed
from the pre-insertion set plus the current chunk over
`[0, totalChunks)`. -/
def processQRCode (s : RxState) (data : String) : RxState :=
  match parseMessage data with
  | none => s
  | some message =>
      if data == MESSAGE_BEGIN then
        { resetReceiver s with isReceivingHeader := true, headerMessages := [] }
      else if data == HEADER_BEGIN then s
      else if startsWith "LEN:" data || startsWith "HASH:" data then
        if s.isReceivingHeader then
          { s with headerMessages := s.headerMessages ++ [data] }
        else s
      else if data == HEADER_END then
        match parseHeader s.headerMessages with
        | some h =>
            { s with
              header := some h,
              progress := { s.progress with
                            totalChunks := h.length, hash := some h.hash },
              isReceivingHeader := false }
        | none => s
      else if data == MESSAGE_END then
        if s.chunks.length > 0 then completeTransfer s else s
      else if message.type == MsgType.chunk then
        match parseDataChunk data with
        | some c =>
            if s.receivedSequences.contains c.sequence then s
            else
              { s with
                chunks := sortChunks (s.chunks ++ [c]),
                receivedSequences := s.receivedSequences ++ [c.sequence],
                progress := { s.progress with
                              receivedChunks := s.progress.receivedChunks + 1,
                              currentChunk := c.sequence,
                              missingChunks :=
                                (List.range s.progress.totalChunks.toNat).filter
                                  (fun i => !s.receivedSequences.contains i &&
                                    i != c.sequence) } }
        | none => s
      else s

/-- Feed a sequence of scanned strings to the session, one at a time. -/
def feedAll (s : RxState) (msgs : List String) : RxState :=
  msgs.foldl processQRCode s

/-- The message classification of spec §4.3, as the receiver effectively
applies it: `parseMessage` (transfer.ts lines 362-382) followed by the
dispatch of `processQRCode` (Receiver.tsx lines 395-465), with the
resulting classification extracted and the state effects dropped.  A
`parseMessage` failure is the spec's `Unrecognized`: `processQRCode`
returns without raising. -/
inductive Message
  | transferBegin
  | headerBegin
  | headerField (content : String)
  | headerEnd
  | dataChunk (chunk : TransferChunk)
  | transferEnd
  | unrecognized
deriving DecidableEq, Repr

/-- Classification of one scanned string; see `Message`. -/
def classify (data : String) : Message :=
  match parseMessage data with
  | none => .unrecognized
  | some message =>
      if data == MESSAGE_BEGIN then .transferBegin
      else if data == HEADER_BEGIN then .headerBegin
      else if startsWith "LEN:" data || startsWith "HASH:" data then
        .headerField data
      else if data == HEADER_END then .headerEnd
      else if data == MESSAGE_END then .transferEnd
      else if message.type == MsgType.chunk then
        match parseDataChunk data with
        | some c => .dataChunk c
        | none => .unrecognized
      else .unrecognized

/-- The strict ordering on chunks by sequence number; a list of chunks
with pairwise distinct, increasing sequence numbers is `Pairwise seqLT`. -/
def seqLT (a b : TransferChunk) : Prop := a.sequence < b.sequence

instance : IsTotal TransferChunk seqLE :=
  ⟨fun a b => Nat.le_total a.sequence b.sequence⟩

instance : IsTrans TransferChunk seqLE :=
  ⟨fun _ _ _ h1 h2 => Nat.le_trans h1 h2⟩

/-- A mid-transfer session used to instantiate theorems about chunk
insertion: header `LEN:5`, chunks 0 and 2 already received. -/
def rxExample : RxState :=
  ⟨.receiving, ⟨5, 2, [1, 3, 4], 2, false, some "abc"⟩,
   [⟨0, "QQ=="⟩, ⟨2, "QQ=="⟩], some ⟨5, "abc"⟩, "", [0, 2],
   ["LEN:5", "HASH:abc"], false⟩

/-! ## Base64 and chunking facts -/

theorem b64Val_b64Char {n : Nat} (h : n < 64) : b64Val (b64Char n) = some n := by
  interval_cases n <;> decide

theorem b64Char_ne_eq {n : Nat} (h : n < 64) : b64Char n ≠ '=' := by
  interval_cases n <;> decide

theorem base64EncodeList_ne_nil {bs : List Nat} (h : bs ≠ []) :
    base64EncodeList bs ≠ [] := by
  match bs with
  | [] => exact absurd rfl h
  | [b0] => simp [base64EncodeList]
  | [b0, b1] => simp [base64EncodeList]
  | b0 :: b1 :: b2 :: rest => simp [base64EncodeList]

theorem base64_decode_encode (bs : List Nat) (h : ∀ b ∈ bs, b < 256) :
    base64DecodeList (base64EncodeList bs) = some bs := by
  induction bs using base64EncodeList.induct with
  | case1 => rfl
  | case2 b0 =>
      have hb0 : b0 < 256 := h b0 (by simp)
      have h1 : b0 / 4 < 64 := by omega
      have h2 : b0 % 4 * 16 < 64 := by omega
      have e : b0 / 4 * 4 + b0 % 4 * 16 / 16 = b0 := by omega
      simp only [base64EncodeList, base64DecodeList, if_true, b64FinalGroup,
        and_self, b64Val_b64Char h1, b64Val_b64Char h2, e]
  | case3 b0 b1 =>
      have hb0 : b0 < 256 := h b0 (by simp)
      have hb1 : b1 < 256 := h b1 (by simp)
      have h1 : b0 / 4 < 64 := by omega
      have h2 : b0 % 4 * 16 + b1 / 16 < 64 := by omega
      have h3 : b1 % 16 * 4 < 64 := by omega
      have e0 : b0 / 4 * 4 + (b0 % 4 * 16 + b1 / 16) / 16 = b0 := by omega
      have e1 : (b0 % 4 * 16 + b1 / 16) % 16 * 16 + b1 % 16 * 4 / 4 = b1 := by
        omega
      simp only [base64EncodeList, base64DecodeList, if_true, b64FinalGroup,
        and_true]
      rw [if_neg (b64Char_ne_eq h3)]
      simp only [if_true, b64Val_b64Char h1, b64Val_b64Char h2,
        b64Val_b64Char h3, e0, e1]
  | case4 b0 b1 b2 rest ih =>
      have hb0 : b0 < 256 := h b0 (by simp)
      have hb1 : b1 < 256 := h b1 (by simp)
      have hb2 : b2 < 256 := h b2 (by simp)
      have hrest : ∀ b ∈ rest, b < 256 := fun b hb => h b (by simp [hb])
      have h1 : b0 / 4 < 64 := by omega
      have h2 : b0 % 4 * 16 + b1 / 16 < 64 := by omega
      have h3 : b1 % 16 * 4 + b2 / 64 < 64 := by omega
      have h4 : b2 % 64 < 64 := by omega
      have e0 : b0 / 4 * 4 + (b0 % 4 * 16 + b1 / 16) / 16 = b0 := by omega
      have e1 : (b0 % 4 * 16 + b1 / 16) % 16 * 16 +
          (b1 % 16 * 4 + b2 / 64) / 4 = b1 := by omega
      have e2 : (b1 % 16 * 4 + b2 / 64) % 4 * 64 + b2 % 64 = b2 := by omega
      by_cases hr : rest = []
      · subst hr
        simp only [base64EncodeList, base64DecodeList, if_true, b64FinalGroup]
        rw [if_neg (fun hc => b64Char_ne_eq h3 hc.1), if_neg (b64Char_ne_eq h4)]
        simp only [b64Group, b64Val_b64Char h1, b64Val_b64Char h2,
          b64Val_b64Char h3, b64Val_b64Char h4, e0, e1, e2]
      · simp only [base64EncodeList, base64DecodeList]
        rw [if_neg (base64EncodeList_ne_nil hr)]
        simp only [b64Group, b64Val_b64Char h1, b64Val_b64Char h2,
          b64Val_b64Char h3, b64Val_b64Char h4, ih hrest, e0, e1, e2,
          Option.some_bind, Option.map_some', List.cons_append,
          List.nil_append]

/-! ### Facts about the chunking loop -/

theorem chunkBytesGo_fuel {s : Nat} (hs : s ≠ 0) :
    ∀ (f₁ f₂ : Nat) (l : List Nat), l.length ≤ f₁ → l.length ≤ f₂ →
      chunkBytesGo f₁ l s = chunkBytesGo f₂ l s := by
  intro f₁
  induction f₁ with
  | zero =>
      intro f₂ l h1 _
      cases l with
      | nil => cases f₂ <;> rfl
      | cons a t => simp at h1
  | succ f ih =>
      intro f₂ l h1 h2
      cases l with
      | nil => cases f₂ <;> rfl
      | cons a t =>
          cases f₂ with
          | zero => simp at h2
          | succ g =>
              simp only [chunkBytesGo]
              congr 1
              have hd : ((a :: t).drop s).length ≤ t.length := by
                simp only [List.length_drop, List.length_cons]
                omega
              have h1' : t.length ≤ f := by simpa using h1
              have h2' : t.length ≤ g := by simpa using h2
              exact ih g _ (le_trans hd h1') (le_trans hd h2')

theorem chunkBytes_nil (s : Nat) : chunkBytes [] s = [] := by
  unfold chunkBytes
  split <;> rfl

theorem chunkBytes_cons {l : List Nat} {s : Nat} (hs : s ≠ 0) (hl : l ≠ []) :
    chunkBytes l s = l.take s :: chunkBytes (l.drop s) s := by
  obtain ⟨a, t, rfl⟩ := List.exists_cons_of_ne_nil hl
  unfold chunkBytes
  rw [if_neg hs, if_neg hs]
  simp only [List.length_cons, chunkBytesGo]
  congr 1
  have hd : ((a :: t).drop s).length ≤ t.length := by
    simp only [List.length_drop, List.length_cons]
    omega
  exact chunkBytesGo_fuel hs t.length _ _ hd le_rfl

theorem chunkBytes_eq_nil_iff {l : List Nat} {s : Nat} (hs : s ≠ 0) :
    chunkBytes l s = [] ↔ l = [] := by
  constructor
  · intro h
    by_contra hl
    rw [chunkBytes_cons hs hl] at h
    cases h
  · intro h
    subst h
    exact chunkBytes_nil s

theorem chunkBytes_flatten {s : Nat} (hs : s ≠ 0) (l : List Nat) :
    (chunkBytes l s).flatten = l := by
  generalize hn : l.length = n
  induction n using Nat.strong_induction_on generalizing l with
  | _ n ih =>
      cases l with
      | nil => simp [chunkBytes_nil]
      | cons a t =>
          rw [chunkBytes_cons hs (by simp), List.flatten_cons]
          rw [ih ((a :: t).drop s).length ?_ _ rfl, List.take_append_drop]
          subst hn
          simp only [List.length_drop, List.length_cons]
          omega

theorem chunkBytes_length_le {s : Nat} (hs : s ≠ 0) (l : List Nat) :
    ∀ c ∈ chunkBytes l s, c.length ≤ s := by
  generalize hn : l.length = n
  induction n using Nat.strong_induction_on generalizing l with
  | _ n ih =>
      cases l with
      | nil => simp [chunkBytes_nil]
      | cons a t =>
          rw [chunkBytes_cons hs (by simp)]
          intro c hc
          rcases List.mem_cons.mp hc with h | h
          · subst h
            simp only [List.length_take]
            omega
          · refine ih ((a :: t).drop s).length ?_ _ rfl c h
            subst hn
            simp only [List.length_drop, List.length_cons]
            omega

theorem chunkBytes_dropLast_length {s : Nat} (hs : s ≠ 0) (l : List Nat) :
    ∀ c ∈ (chunkBytes l s).dropLast, c.length = s := by
  generalize hn : l.length = n
  induction n using Nat.strong_induction_on generalizing l with
  | _ n ih =>
      cases l with
      | nil => simp [chunkBytes_nil]
      | cons a t =>
          rw [chunkBytes_cons hs (by simp)]
          by_cases hrest : (a :: t).drop s = []
          · rw [hrest, chunkBytes_nil]
            simp
          · intro c hc
            rw [List.dropLast_cons_of_ne_nil
              ((not_iff_not.mpr (chunkBytes_eq_nil_iff hs)).mpr hrest)] at hc
            rcases List.mem_cons.mp hc with h | h
            · subst h
              have hlen : s < (a :: t).length := by
                by_contra hle
                exact hrest (List.drop_eq_nil_of_le (by omega))
              simp only [List.length_take]
              omega
            · refine ih ((a :: t).drop s).length ?_ _ rfl c h
              subst hn
              simp only [List.length_drop, List.length_cons]
              omega

theorem chunkBytes_of_length_eq {l : List Nat} {s : Nat} (hs : s ≠ 0)
    (h : l.length = s) : chunkBytes l s = [l] := by
  have hl : l ≠ [] := by
    intro hnil
    subst hnil
    simp at h
    omega
  rw [chunkBytes_cons hs hl, List.take_of_length_le (by omega),
    List.drop_eq_nil_of_le (by omega), chunkBytes_nil]

theorem chunkBytes_mem_mem {l : List Nat} {s : Nat} (hs : s ≠ 0)
    {c : List Nat} (hc : c ∈ chunkBytes l s) {b : Nat} (hb : b ∈ c) : b ∈ l := by
  have : b ∈ (chunkBytes l s).flatten := List.mem_flatten.mpr ⟨c, hc, hb⟩
  rwa [chunkBytes_flatten hs] at this

theorem atobAll_encode (l : List (List Nat)) (h : ∀ c ∈ l, ∀ b ∈ c, b < 256) :
    atobAll (l.map (fun c => String.mk (base64EncodeList c))) = some l := by
  induction l with
  | nil => rfl
  | cons c rest ih =>
      have hc : ∀ b ∈ c, b < 256 := h c (by simp)
      have hrest : ∀ d ∈ rest, ∀ b ∈ d, b < 256 := fun d hd => h d (by simp [hd])
      simp only [List.map_cons, atobAll, String.data]
      rw [base64_decode_encode c hc, ih hrest]

/-! ## Decimal rendering facts -/

theorem strMk_data (s : String) : String.mk s.data = s := rfl

theorem digitVal_digitChar {d : Nat} (h : d < 10) : digitVal (digitChar d) = d := by
  interval_cases d <;> decide

theorem digitChar_isDigit {d : Nat} (h : d < 10) : (digitChar d).isDigit = true := by
  interval_cases d <;> decide

theorem decToNat_append_singleton (cs : List Char) (c : Char) :
    decToNat (cs ++ [c]) = 10 * decToNat cs + digitVal c := by
  unfold decToNat
  rw [List.foldl_append]
  rfl

theorem natToDecGo_fuel :
    ∀ f₁ f₂ n : Nat, n ≤ f₁ → n ≤ f₂ → natToDecGo f₁ n = natToDecGo f₂ n := by
  intro f₁
  induction f₁ with
  | zero =>
      intro f₂ n h1 _
      interval_cases n
      cases f₂ <;> rfl
  | succ f ih =>
      intro f₂ n h1 h2
      match n, f₂ with
      | 0, f₂ => cases f₂ <;> rfl
      | m + 1, 0 => omega
      | m + 1, g + 1 =>
          simp only [natToDecGo]
          congr 1
          have hd : (m + 1) / 10 < m + 1 := Nat.div_lt_self (by omega) (by omega)
          exact ih g _ (by omega) (by omega)

theorem natToDecGo_decToNat : ∀ fuel n : Nat, n ≤ fuel →
    decToNat (natToDecGo fuel n) = n := by
  intro fuel
  induction fuel with
  | zero =>
      intro n h
      interval_cases n
      rfl
  | succ f ih =>
      intro n h
      match n with
      | 0 => rfl
      | m + 1 =>
          simp only [natToDecGo, decToNat_append_singleton]
          have hd : (m + 1) / 10 < m + 1 := Nat.div_lt_self (by omega) (by omega)
          rw [ih _ (by omega), digitVal_digitChar (Nat.mod_lt _ (by omega))]
          omega

theorem decToNat_natToDec (n : Nat) : decToNat (natToDec n) = n := by
  unfold natToDec
  by_cases h : n = 0
  · subst h
    decide
  · rw [if_neg h]
    exact natToDecGo_decToNat n n le_rfl

theorem natToDecGo_all_digit : ∀ fuel n : Nat, n ≤ fuel →
    ∀ c ∈ natToDecGo fuel n, c.isDigit = true := by
  intro fuel
  induction fuel with
  | zero =>
      intro n h
      interval_cases n
      simp [natToDecGo]
  | succ f ih =>
      intro n h c hc
      match n with
      | 0 => simp [natToDecGo] at hc
      | m + 1 =>
          simp only [natToDecGo, List.mem_append, List.mem_singleton] at hc
          rcases hc with hc | hc
          · have hd : (m + 1) / 10 < m + 1 := Nat.div_lt_self (by omega) (by omega)
            exact ih _ (by omega) c hc
          · subst hc
            exact digitChar_isDigit (Nat.mod_lt _ (by omega))

theorem natToDec_all_digit (n : Nat) : ∀ c ∈ natToDec n, c.isDigit = true := by
  unfold natToDec
  by_cases h : n = 0
  · subst h
    decide
  · rw [if_neg h]
    exact natToDecGo_all_digit n n le_rfl

theorem natToDecGo_length_le : ∀ fuel n k : Nat, n ≤ fuel → n < 10 ^ k →
    (natToDecGo fuel n).length ≤ k := by
  intro fuel
  induction fuel with
  | zero =>
      intro n k h _
      interval_cases n
      simp [natToDecGo]
  | succ f ih =>
      intro n k h hk
      match n with
      | 0 => simp [natToDecGo]
      | m + 1 =>
          have hkpos : k ≠ 0 := by
            intro h0
            subst h0
            simp at hk
          obtain ⟨k', rfl⟩ := Nat.exists_eq_succ_of_ne_zero hkpos
          simp only [natToDecGo, List.length_append, List.length_singleton]
          have hd : (m + 1) / 10 < m + 1 := Nat.div_lt_self (by omega) (by omega)
          have hdiv : (m + 1) / 10 < 10 ^ k' := by
            rw [Nat.div_lt_iff_lt_mul (by omega)]
            calc m + 1 < 10 ^ (k' + 1) := hk
            _ = 10 ^ k' * 10 := by ring
          have := ih ((m + 1) / 10) k' (by omega) hdiv
          omega

theorem natToDec_length_le {n k : Nat} (hk : 1 ≤ k) (h : n < 10 ^ k) :
    (natToDec n).length ≤ k := by
  unfold natToDec
  by_cases h0 : n = 0
  · subst h0
    simpa using hk
  · rw [if_neg h0]
    exact natToDecGo_length_le n n k le_rfl h

theorem decToNat_replicate_zero (k : Nat) (cs : List Char) :
    decToNat (List.replicate k '0' ++ cs) = decToNat cs := by
  induction k with
  | zero => rfl
  | succ m ih =>
      rw [List.replicate_succ, List.cons_append]
      show decToNat (List.replicate m '0' ++ cs) = decToNat cs
      exact ih

/-! ## C7: createDataMessage format and round trip -/

theorem padStart_length {cs : List Char} {w : Nat} {c : Char}
    (h : cs.length ≤ w) : (padStart cs w c).length = w := by
  simp only [padStart, List.length_append, List.length_replicate]
  omega

/-- C7: for `0 ≤ seq < 10^10` and a non-empty payload containing no line
terminator, `createDataMessage seq p` is exactly the zero-padded
10-digit decimal rendering of `seq`, a literal colon, then `p` verbatim,
and `parseDataChunk` recovers `{sequence := seq, data := p}`. -/
theorem createDataMessage_roundTrip (seq : Nat) (p : String)
    (hseq : seq < 10 ^ 10) (hp : p.data ≠ [])
    (hline : ∀ c ∈ p.data, isLineTerm c = false) :
    (createDataMessage seq p).data =
      padStart (natToDec seq) 10 '0' ++ ':' :: p.data ∧
    (padStart (natToDec seq) 10 '0').length = 10 ∧
    (∀ c ∈ padStart (natToDec seq) 10 '0', c.isDigit = true) ∧
    decToNat (padStart (natToDec seq) 10 '0') = seq ∧
    parseDataChunk (createDataMessage seq p) = some ⟨seq, p⟩ := by
  have hlen : (natToDec seq).length ≤ 10 := natToDec_length_le (by omega) hseq
  have hpadlen : (padStart (natToDec seq) 10 '0').length = 10 := padStart_length hlen
  have hdigits : ∀ c ∈ padStart (natToDec seq) 10 '0', c.isDigit = true := by
    intro c hc
    rcases List.mem_append.mp hc with hc | hc
    · rw [List.eq_of_mem_replicate hc]
      decide
    · exact natToDec_all_digit seq c hc
  have hval : decToNat (padStart (natToDec seq) 10 '0') = seq := by
    unfold padStart
    rw [decToNat_replicate_zero, decToNat_natToDec]
  refine ⟨rfl, hpadlen, hdigits, hval, ?_⟩
  have hdata : (createDataMessage seq p).data =
      padStart (natToDec seq) 10 '0' ++ ':' :: p.data := rfl
  have htake : (createDataMessage seq p).data.take 10 =
      padStart (natToDec seq) 10 '0' := by
    rw [hdata, List.take_left' hpadlen]
  have hdrop : (createDataMessage seq p).data.drop 10 = ':' :: p.data := by
    rw [hdata, List.drop_left' hpadlen]
  have hdrop11 : (createDataMessage seq p).data.drop 11 = p.data := by
    have : (11 : Nat) = 10 + 1 := rfl
    rw [this, ← List.drop_drop, hdrop]
    rfl
  have hpat : chunkPattern (createDataMessage seq p) = true := by
    unfold chunkPattern
    rw [htake, hdrop, hdrop11, hpadlen]
    obtain ⟨a, t, hpt⟩ := List.exists_cons_of_ne_nil hp
    rw [hpt]
    simp only [List.headD_cons, List.isEmpty_cons, List.all_eq_true,
      Bool.not_false, Bool.and_eq_true, decide_eq_true_eq, beq_self_eq_true,
      Bool.true_and, and_true, true_and]
    refine ⟨fun c hc => hdigits c hc, fun c hc => ?_⟩
    rw [hline c (hpt ▸ hc)]
    rfl
  unfold parseDataChunk
  rw [hpat]
  simp only [if_true]
  rw [htake, hdrop11, hval, strMk_data]

/-- Witness for C7 at sequence 42 and the repository's own test payload:
the wire line is `0000000042:dGVzdCBkYXRh` and parses back. -/
theorem createDataMessage_roundTrip_witness :
    createDataMessage 42 "dGVzdCBkYXRh" = "0000000042:dGVzdCBkYXRh" ∧
    parseDataChunk "0000000042:dGVzdCBkYXRh" = some ⟨42, "dGVzdCBkYXRh"⟩ := by
  refine ⟨by decide, ?_⟩
  have h := createDataMessage_roundTrip 42 "dGVzdCBkYXRh" (by decide)
    (by decide) (by decide)
  have he : createDataMessage 42 "dGVzdCBkYXRh" = "0000000042:dGVzdCBkYXRh" := by
    decide
  rw [← he]
  exact h.2.2.2.2

/-! ## C6: chunkData splits the buffer into spans -/

/-- C6: for every buffer and `chunkSize ≥ 1`, the payloads of
`chunkData` decode (in order) to the byte slices of the buffer, those
slices are contiguous (they concatenate back to the buffer), each is at
most `chunkSize` long, every slice but possibly the last is exactly
`chunkSize` long, the empty buffer yields zero chunks, and a buffer of
exactly `chunkSize` bytes yields exactly one chunk. -/
theorem chunkData_spans (bs : List Nat) (s : Nat) (hs : 1 ≤ s)
    (hb : ∀ b ∈ bs, b < 256) :
    atobAll (chunkData bs s) = some (chunkBytes bs s) ∧
    (chunkBytes bs s).flatten = bs ∧
    (∀ c ∈ chunkBytes bs s, c.length ≤ s) ∧
    (∀ c ∈ (chunkBytes bs s).dropLast, c.length = s) ∧
    (bs = [] → chunkData bs s = []) ∧
    (bs.length = s → (chunkData bs s).length = 1) := by
  have hs' : s ≠ 0 := by omega
  refine ⟨?_, chunkBytes_flatten hs' bs, chunkBytes_length_le hs' bs,
    chunkBytes_dropLast_length hs' bs, ?_, ?_⟩
  · unfold chunkData
    exact atobAll_encode _ (fun c hc b hbb => hb b (chunkBytes_mem_mem hs' hc hbb))
  · intro h
    subst h
    unfold chunkData
    rw [chunkBytes_nil]
    rfl
  · intro h
    unfold chunkData
    rw [chunkBytes_of_length_eq hs' h]
    rfl

/-- Witness for C6 at the buffer `Hi` (= bytes 72, 105): one chunk for
`chunkSize = 10` (smaller than the chunk size) and exactly one chunk of
full size for `chunkSize = 2`; the empty buffer yields no chunks. -/
theorem chunkData_spans_witness :
    chunkData [] 10 = [] ∧
    chunkData [72, 105] 10 = ["SGk="] ∧
    (chunkData [72, 105] 2).length = 1 ∧
    atobAll (chunkData [72, 105] 2) = some [[72, 105]] := by
  refine ⟨(chunkData_spans [] 10 (by decide) (by decide)).2.2.2.2.1 rfl,
    by decide,
    (chunkData_spans [72, 105] 2 (by decide) (by decide)).2.2.2.2.2 (by decide),
    ?_⟩
  have h := (chunkData_spans [72, 105] 2 (by decide) (by decide)).1
  rw [h]
  decide

/-! ## Dispatch facts: a chunk-shaped string is no marker and no header
field, so both parseMessage and processQRCode route it to the chunk
branch. -/

theorem chunkPattern_head_digit {data : String} (h : chunkPattern data = true) :
    ∃ d t, data.data = d :: t ∧ d.isDigit = true := by
  unfold chunkPattern at h
  simp only [Bool.and_eq_true, decide_eq_true_eq, List.all_eq_true] at h
  obtain ⟨⟨⟨⟨hlen, hdig⟩, _⟩, _⟩, _⟩ := h
  cases hd : data.data with
  | nil =>
      rw [hd] at hlen
      simp at hlen
  | cons d t =>
      refine ⟨d, t, rfl, ?_⟩
      apply hdig
      rw [hd]
      rw [show List.take 10 (d :: t) = d :: List.take 9 t from rfl]
      exact List.mem_cons_self d _

theorem chunkPattern_not_special {data : String} (h : chunkPattern data = true) :
    (data == MESSAGE_BEGIN) = false ∧ (data == MESSAGE_END) = false ∧
    (data == HEADER_BEGIN) = false ∧ (data == HEADER_END) = false ∧
    startsWith "LEN:" data = false ∧ startsWith "HASH:" data = false := by
  obtain ⟨d, t, hdt, hdig⟩ := chunkPattern_head_digit h
  have hne : ∀ m : String, (m.data.headD ' ').isDigit = false →
      (data == m) = false := by
    intro m hm
    rw [beq_eq_false_iff_ne]
    intro he
    rw [← he, hdt] at hm
    simp only [List.headD_cons] at hm
    rw [hdig] at hm
    cases hm
  have hpre : ∀ (p : String) (c : Char) (r : List Char), p.data = c :: r →
      c.isDigit = false → startsWith p data = false := by
    intro p c r hp hc
    unfold startsWith
    rw [hp, hdt]
    by_contra hb
    rw [Bool.not_eq_false] at hb
    simp only [List.isPrefixOf, Bool.and_eq_true, beq_iff_eq] at hb
    rw [hb.1, hdig] at hc
    cases hc
  exact ⟨hne MESSAGE_BEGIN (by decide), hne MESSAGE_END (by decide),
    hne HEADER_BEGIN (by decide), hne HEADER_END (by decide),
    hpre "LEN:" 'L' "EN:".data rfl (by decide),
    hpre "HASH:" 'H' "ASH:".data rfl (by decide)⟩

theorem parseMessage_of_chunkPattern {data : String}
    (h : chunkPattern data = true) :
    parseMessage data = some ⟨.chunk, data⟩ := by
  obtain ⟨h1, h2, h3, h4, h5, h6⟩ := chunkPattern_not_special h
  simp only [parseMessage, h1, h2, h3, h4, h5, h6, h, Bool.or_self,
    Bool.or_false, Bool.false_or, if_false, if_true]
  rfl

theorem parseDataChunk_of_chunkPattern {data : String}
    (h : chunkPattern data = true) :
    parseDataChunk data =
      some ⟨decToNat (data.data.take 10), String.mk (data.data.drop 11)⟩ := by
  unfold parseDataChunk
  rw [h]
  simp only [if_true]

/-! ## C5: total, stateless classification -/

/-- C5 (amended): classification is a pure, total function of the single
string.  The exact begin marker classifies as TransferBegin, the exact
end marker as TransferEnd; a string of exactly 10 decimal digits, a
colon, then at least one character none of which is a line terminator
classifies as DataChunk carrying the parsed sequence and the remainder
verbatim; and a string matching none of the code's patterns classifies
as Unrecognized — an ordinary value, not an error. -/
theorem classify_messages :
    classify MESSAGE_BEGIN = Message.transferBegin ∧
    classify MESSAGE_END = Message.transferEnd ∧
    (∀ ds rest : List Char, ds.length = 10 → (∀ c ∈ ds, c.isDigit = true) →
      rest ≠ [] → (∀ c ∈ rest, isLineTerm c = false) →
      classify (String.mk (ds ++ ':' :: rest)) =
        Message.dataChunk ⟨decToNat ds, String.mk rest⟩) ∧
    (∀ data : String, (data == MESSAGE_BEGIN) = false →
      (data == MESSAGE_END) = false → (data == HEADER_BEGIN) = false →
      (data == HEADER_END) = false → startsWith "LEN:" data = false →
      startsWith "HASH:" data = false → chunkPattern data = false →
      classify data = Message.unrecognized) := by
  refine ⟨by decide, by decide, ?_, ?_⟩
  · intro ds rest hlen hdig hne hterm
    set msg : String := String.mk (ds ++ ':' :: rest) with hmsg
    have hdata : msg.data = ds ++ ':' :: rest := rfl
    have htake : msg.data.take 10 = ds := by
      rw [hdata, List.take_left' hlen]
    have hdrop : msg.data.drop 10 = ':' :: rest := by
      rw [hdata, List.drop_left' hlen]
    have hdrop11 : msg.data.drop 11 = rest := by
      rw [show (11 : Nat) = 10 + 1 from rfl, ← List.drop_drop, hdrop]
      rfl
    have hpat : chunkPattern msg = true := by
      unfold chunkPattern
      rw [htake, hdrop, hdrop11, hlen]
      obtain ⟨a, t, hrt⟩ := List.exists_cons_of_ne_nil hne
      rw [hrt]
      simp only [List.headD_cons, List.isEmpty_cons, List.all_eq_true,
        Bool.not_false, Bool.and_eq_true, decide_eq_true_eq,
        beq_self_eq_true, Bool.true_and, and_true, true_and]
      refine ⟨hdig, fun c hc => ?_⟩
      rw [hterm c (hrt ▸ hc)]
      rfl
    obtain ⟨h1, h2, h3, h4, h5, h6⟩ := chunkPattern_not_special hpat
    unfold classify
    rw [parseMessage_of_chunkPattern hpat]
    simp only [h1, h2, h3, h4, h5, h6, Bool.or_self, Bool.or_false,
      Bool.false_or, if_false]
    rw [parseDataChunk_of_chunkPattern hpat, htake, hdrop11]
    rfl
  · intro data h1 h2 h3 h4 h5 h6 h7
    unfold classify parseMessage
    simp only [h1, h2, h3, h4, h5, h6, h7, Bool.or_self, Bool.or_false,
      Bool.false_or, if_false]
    rfl

/-- C5 counterexample: `"0000000000:\n"` is ten decimal digits, a colon,
and one further character, which the claim classifies as DataChunk; the
code's regular expression `.+` matches no line terminator, so
`parseMessage` returns null and the string classifies as Unrecognized. -/
theorem classify_newline_counterexample :
    ("0000000000:\n" : String).data.take 10 = "0000000000".data ∧
    (("0000000000:\n" : String).data.take 10).all Char.isDigit = true ∧
    ("0000000000:\n" : String).data.drop 10 = ':' :: ['\n'] ∧
    classify "0000000000:\n" = Message.unrecognized := by decide

/-- Witness for C5 at the repository's own chunk line and at the garbage
string from its tests. -/
theorem classify_messages_witness :
    classify "0000000042:QQ==" = Message.dataChunk ⟨42, "QQ=="⟩ ∧
    classify "invalid message" = Message.unrecognized := by
  constructor
  · have h := classify_messages.2.2.1 "0000000042".data "QQ==".data
      (by decide) (by decide) (by decide) (by decide)
    have he : String.mk ("0000000042".data ++ ':' :: "QQ==".data) =
        "0000000042:QQ==" := by decide
    rw [he] at h
    rw [h]
    decide
  · exact classify_messages.2.2.2 "invalid message" (by decide) (by decide)
      (by decide) (by decide) (by decide) (by decide) (by decide)

/-! ## Reduction of processQRCode on a chunk message -/

theorem chunkPattern_of_parseDataChunk {data : String} {c : TransferChunk}
    (hc : parseDataChunk data = some c) : chunkPattern data = true := by
  by_contra hb
  rw [Bool.not_eq_true] at hb
  unfold parseDataChunk at hc
  rw [hb] at hc
  simp at hc

theorem processQRCode_chunk (s : RxState) {data : String} {c : TransferChunk}
    (hc : parseDataChunk data = some c) :
    processQRCode s data =
      if s.receivedSequences.contains c.sequence then s
      else
        { s with
          chunks := sortChunks (s.chunks ++ [c]),
          receivedSequences := s.receivedSequences ++ [c.sequence],
          progress := { s.progress with
                        receivedChunks := s.progress.receivedChunks + 1,
                        currentChunk := c.sequence,
                        missingChunks :=
                          (List.range s.progress.totalChunks.toNat).filter
                            (fun i => !s.receivedSequences.contains i &&
                              i != c.sequence) } } := by
  have hpat : chunkPattern data = true := chunkPattern_of_parseDataChunk hc
  obtain ⟨h1, h2, h3, h4, h5, h6⟩ := chunkPattern_not_special hpat
  unfold processQRCode
  rw [parseMessage_of_chunkPattern hpat]
  simp only [h1, h2, h3, h4, h5, h6, Bool.or_self, Bool.or_false,
    Bool.false_or, if_false, hc]
  rfl

/-! ## C8: duplicate chunks are suppressed idempotently -/

/-- C8: feeding the same DataChunk message to a session twice yields
exactly the same session state as feeding it once — not only the
`receivedChunks` count and the chunk map but every field. -/
theorem duplicate_chunk_idempotent (s : RxState) (data : String)
    (c : TransferChunk) (hc : parseDataChunk data = some c) :
    processQRCode (processQRCode s data) data = processQRCode s data := by
  rw [processQRCode_chunk s hc]
  by_cases hmem : s.receivedSequences.contains c.sequence = true
  · rw [if_pos hmem, processQRCode_chunk s hc, if_pos hmem]
  · rw [if_neg hmem, processQRCode_chunk _ hc]
    rw [if_pos ?_]
    show (s.receivedSequences ++ [c.sequence]).contains c.sequence = true
    simp

/-- Witness for C8: a concrete duplicate of chunk 7 against the fresh
session is a no-op the second time. -/
theorem duplicate_chunk_idempotent_witness :
    processQRCode (processQRCode initialState "0000000007:QQ==")
        "0000000007:QQ==" =
      processQRCode initialState "0000000007:QQ==" :=
  duplicate_chunk_idempotent initialState "0000000007:QQ==" ⟨7, "QQ=="⟩
    (by decide)

/-! ## C9: the missing-chunk set -/

theorem contains_append_singleton (l : List Nat) (x i : Nat) :
    (l ++ [x]).contains i = (l.contains i || i == x) := by
  rw [List.contains_eq_any_beq, List.contains_eq_any_beq, List.any_append]
  simp only [List.any_cons, List.any_nil, Bool.or_false]

/-- C9 (amended): immediately after each accepted (non-duplicate)
DataChunk insertion, `missingChunks` equals the ascending list of
sequence numbers in `[0, totalChunks)` not present in the updated
received-sequence set — whatever duplicates or out-of-range sequences
were received before.  At a point where no insertion has happened since
the header became known, `missingChunks` instead retains its previous
value (initially `[]`); see the counterexample. -/
theorem missingChunks_after_insert (s : RxState) (data : String)
    (c : TransferChunk) (hc : parseDataChunk data = some c)
    (hnew : s.receivedSequences.contains c.sequence = false) :
    (processQRCode s data).progress.missingChunks =
      (List.range (processQRCode s data).progress.totalChunks.toNat).filter
        (fun i => !(processQRCode s data).receivedSequences.contains i) ∧
    (processQRCode s data).progress.missingChunks.Pairwise (· < ·) := by
  rw [processQRCode_chunk s hc, if_neg (by rw [hnew]; exact Bool.false_ne_true)]
  constructor
  · refine (List.filter_congr fun i _ => ?_).symm
    rw [contains_append_singleton, Bool.not_or]
    rfl
  · exact (List.pairwise_lt_range _).sublist (List.filter_sublist _)

/-- C9 counterexample: right after the header (`LEN:5`) is processed and
before any chunk arrives, the received set is empty, so the claim
requires `missingChunks = [0, 1, 2, 3, 4]`; the code recomputes
`missingChunks` only on chunk insertion, so it still holds its initial
value `[]`. -/
theorem missingChunks_after_header_counterexample :
    (feedAll initialState
      [MESSAGE_BEGIN, "LEN:5", "HASH:abc", HEADER_END]).progress.totalChunks
        = 5 ∧
    (feedAll initialState
      [MESSAGE_BEGIN, "LEN:5", "HASH:abc", HEADER_END]).receivedSequences
        = [] ∧
    (List.range (5 : Int).toNat).filter
      (fun i => !([] : List Nat).contains i) = [0, 1, 2, 3, 4] ∧
    (feedAll initialState
      [MESSAGE_BEGIN, "LEN:5", "HASH:abc", HEADER_END]).progress.missingChunks
        = [] := by decide

/-- Witness for C9: inserting chunk 3 into a session holding `{0, 2}` of
5 declared chunks leaves `missingChunks = [1, 4]`, which is the filtered
range of the updated received set. -/
theorem missingChunks_after_insert_witness :
    (processQRCode rxExample "0000000003:QQ==").progress.missingChunks
      = [1, 4] ∧
    (processQRCode rxExample "0000000003:QQ==").progress.missingChunks =
      (List.range
        (processQRCode rxExample "0000000003:QQ==").progress.totalChunks.toNat).filter
        (fun i =>
          !(processQRCode rxExample "0000000003:QQ==").receivedSequences.contains i) :=
  ⟨by decide,
   (missingChunks_after_insert rxExample "0000000003:QQ==" ⟨3, "QQ=="⟩
     (by decide) (by decide)).1⟩

/-! ## C3: TransferEnd with zero chunks -/

/-- C3 (amended): processing `MESSAGE_END` while zero chunks have been
collected is a no-op: the session state is entirely unchanged — no
Failed/error state is entered and no reason is reported.  (The guard
`chunks.length > 0` in `processQRCode` skips `completeTransfer`, whose
`No data received` message is therefore unreachable from the scan path
with zero chunks.) -/
theorem transferEnd_no_chunks (s : RxState) (h : s.chunks = []) :
    processQRCode s MESSAGE_END = s := by
  show (if s.chunks.length > 0 then completeTransfer s else s) = s
  rw [h]
  rfl

/-- C3 counterexample: a fresh session (TransferBegin received, zero
chunks) fed `MESSAGE_END` is left entirely unchanged — status is not
`error` and the error message stays empty — whereas the claim requires
a Failed terminal state with a reported reason. -/
theorem transferEnd_empty_counterexample :
    (processQRCode initialState MESSAGE_BEGIN).chunks = [] ∧
    processQRCode (processQRCode initialState MESSAGE_BEGIN) MESSAGE_END =
      processQRCode initialState MESSAGE_BEGIN ∧
    (processQRCode (processQRCode initialState MESSAGE_BEGIN)
        MESSAGE_END).status ≠ Status.error ∧
    (processQRCode (processQRCode initialState MESSAGE_BEGIN)
        MESSAGE_END).errorMessage = "" := by decide

/-- Witness for C3 at the fresh session after TransferBegin. -/
theorem transferEnd_no_chunks_witness :
    processQRCode (processQRCode initialState MESSAGE_BEGIN) MESSAGE_END =
      processQRCode initialState MESSAGE_BEGIN :=
  transferEnd_no_chunks _ (by decide)

/-! ## C4: HeaderEnd with an incomplete header -/

/-- C4 (amended): a `HEADER_END` processed while `parseHeader` fails on
the collected fields (chunk count missing, not positive, or digest
missing) leaves the session entirely unchanged — no Failed state, no
reported reason, chunks retained, header collection still marked
active.  The session stores the header, copies `totalChunks` and the
digest into the progress snapshot and stops header collection exactly
when `parseHeader` succeeds, which requires a positive chunk count and
a nonempty digest. -/
theorem headerEnd_dispatch (s : RxState) :
    (parseHeader s.headerMessages = none →
      processQRCode s HEADER_END = s) ∧
    (∀ h, parseHeader s.headerMessages = some h →
      processQRCode s HEADER_END =
        { s with
          header := some h,
          progress := { s.progress with
                        totalChunks := h.length, hash := some h.hash },
          isReceivingHeader := false }) ∧
    (∀ (msgs : List String) (h : TransferHeader), parseHeader msgs = some h →
      0 < h.length ∧ h.hash ≠ "") := by
  refine ⟨?_, ?_, ?_⟩
  · intro hnone
    show (match parseHeader s.headerMessages with
          | some h =>
              { s with
                header := some h,
                progress := { s.progress with
                              totalChunks := h.length, hash := some h.hash },
                isReceivingHeader := false }
          | none => s) = s
    rw [hnone]
  · intro h hsome
    show (match parseHeader s.headerMessages with
          | some h =>
              { s with
                header := some h,
                progress := { s.progress with
                              totalChunks := h.length, hash := some h.hash },
                isReceivingHeader := false }
          | none => s) = _
    rw [hsome]
  · intro msgs h hm
    unfold parseHeader at hm
    rcases hr : msgs.foldl parseHeaderFold (some 0, "") with ⟨no, hs⟩
    rw [hr] at hm
    cases no with
    | none =>
        dsimp only [] at hm
        cases hm
    | some n =>
        dsimp only [] at hm
        by_cases hcond : 0 < n ∧ hs ≠ ""
        · rw [if_pos hcond] at hm
          cases hm
          exact hcond
        · rw [if_neg hcond] at hm
          cases hm

/-- C4 counterexample: collect only `LEN:10` plus one data chunk, then
process `HEADER_END`.  `parseHeader` fails (no digest), and the session
is left exactly as it was: the chunk is retained, no error is reported,
the status is unchanged and header collection is still active — whereas
the claim requires a Failed state with the chunks discarded. -/
theorem headerEnd_incomplete_counterexample :
    parseHeader ["LEN:10"] = none ∧
    feedAll initialState
        [MESSAGE_BEGIN, "LEN:10", "0000000000:QQ==", HEADER_END] =
      feedAll initialState [MESSAGE_BEGIN, "LEN:10", "0000000000:QQ=="] ∧
    (feedAll initialState
      [MESSAGE_BEGIN, "LEN:10", "0000000000:QQ==", HEADER_END]).chunks ≠ [] ∧
    (feedAll initialState
      [MESSAGE_BEGIN, "LEN:10", "0000000000:QQ==", HEADER_END]).errorMessage
        = "" ∧
    (feedAll initialState
      [MESSAGE_BEGIN, "LEN:10", "0000000000:QQ==", HEADER_END]).status
        ≠ Status.error ∧
    (feedAll initialState
      [MESSAGE_BEGIN, "LEN:10", "0000000000:QQ==", HEADER_END]).isReceivingHeader
        = true := by decide

/-- Witness for C4: the ignore branch at a session holding only
`LEN:10`, and the positivity/nonemptiness of every stored header. -/
theorem headerEnd_dispatch_witness :
    processQRCode (feedAll initialState [MESSAGE_BEGIN, "LEN:10"]) HEADER_END =
      feedAll initialState [MESSAGE_BEGIN, "LEN:10"] ∧
    (0 : Int) < (⟨2, "abc"⟩ : TransferHeader).length ∧
    (⟨2, "abc"⟩ : TransferHeader).hash ≠ "" :=
  ⟨(headerEnd_dispatch _).1 (by decide),
   (headerEnd_dispatch initialState).2.2 ["LEN:2", "HASH:abc"] ⟨2, "abc"⟩
     (by decide)⟩

/-! ## C2: digest comparison is case-sensitive -/

theorem map_eq_self_mem {l : List Char} {f : Char → Char} (h : l.map f = l) :
    ∀ c ∈ l, f c = c := by
  induction l with
  | nil =>
      intro c hc
      cases hc
  | cons a t ih =>
      simp only [List.map_cons, List.cons.injEq] at h
      intro c hc
      rcases List.mem_cons.mp hc with rfl | hc
      · exact h.1
      · exact ih h.2 c hc

/-- C2 (amended): `verifyIntegrity` compares the recomputed digest with
the expected digest using JavaScript `===`, a case-sensitive exact
string comparison: the digest itself (lowercase) verifies, and any
rendering differing from it only in letter case — in particular the
uppercase rendering, whenever the digest contains a letter — is
rejected. -/
theorem verifyIntegrity_case_sensitive (data : List Nat) :
    verifyIntegrity data (calculateHash data) = true ∧
    ((∃ c ∈ (calculateHash data).data, Char.toUpper c ≠ c) →
      verifyIntegrity data
        (String.mk ((calculateHash data).data.map Char.toUpper)) = false) := by
  constructor
  · unfold verifyIntegrity
    exact beq_self_eq_true _
  · intro hex
    unfold verifyIntegrity
    rw [beq_eq_false_iff_ne]
    intro he
    obtain ⟨c, hc, hne⟩ := hex
    have hdata : (calculateHash data).data =
        (calculateHash data).data.map Char.toUpper := congrArg String.data he
    exact hne (map_eq_self_mem hdata.symm c hc)

/-- C2 counterexample: SHA-1 of the empty buffer is
`da39a3ee5e6b4b0d3255bfef95601890afd80709`; verifying the empty buffer
against the uppercase rendering of that digest returns false, where the
claim requires true. -/
theorem verifyIntegrity_uppercase_counterexample :
    calculateHash [] = "da39a3ee5e6b4b0d3255bfef95601890afd80709" ∧
    String.mk ((calculateHash []).data.map Char.toUpper) =
      "DA39A3EE5E6B4B0D3255BFEF95601890AFD80709" ∧
    verifyIntegrity [] "DA39A3EE5E6B4B0D3255BFEF95601890AFD80709" = false := by
  refine ⟨by decide, by decide, by decide⟩

/-- Witness for C2 at the empty buffer. -/
theorem verifyIntegrity_case_sensitive_witness :
    verifyIntegrity [] (calculateHash []) = true ∧
    verifyIntegrity []
      (String.mk ((calculateHash []).data.map Char.toUpper)) = false :=
  ⟨(verifyIntegrity_case_sensitive []).1,
   (verifyIntegrity_case_sensitive []).2 (by decide)⟩

/-! ## C10: reconstructData sorts its argument in place -/

/-- C10: `chunks.sort(...)` inside `reconstructData` sorts the caller's
own array (modelled by the first component of the returned pair, the
content of the argument array after the call): after every call the
caller's array holds its chunks in ascending sequence order — for an
unsorted input this differs from the order passed in — and
`completeTransfer` therefore leaves the receiver's stored chunk list
sorted as a side effect of reassembly. -/
theorem reconstructData_sorts_in_place :
    (∀ cs : List TransferChunk, (reconstructData cs).1 = sortChunks cs) ∧
    (∀ cs : List TransferChunk, ((reconstructData cs).1).Sorted seqLE) ∧
    (∀ (s : RxState) (h : TransferHeader), s.header = some h →
      s.chunks ≠ [] → (completeTransfer s).chunks = sortChunks s.chunks) ∧
    (reconstructData [⟨1, "Qg=="⟩, ⟨0, "QQ=="⟩]).1 =
      [⟨0, "QQ=="⟩, ⟨1, "Qg=="⟩] ∧
    (reconstructData [⟨1, "Qg=="⟩, ⟨0, "QQ=="⟩]).1 ≠
      [⟨1, "Qg=="⟩, ⟨0, "QQ=="⟩] := by
  refine ⟨fun cs => rfl, fun cs => List.sorted_insertionSort seqLE cs,
    ?_, by decide, by decide⟩
  intro s h hh hne
  unfold completeTransfer reconstructData
  rw [hh]
  dsimp only []
  rw [if_neg (by rw [List.isEmpty_eq_false.mpr hne]; exact Bool.false_ne_true)]
  rcases hopt : (atobAll ((sortChunks s.chunks).map TransferChunk.data)).map
      List.flatten with _ | buf
  · rfl
  · dsimp only []
    by_cases hv : verifyIntegrity buf h.hash = true
    · rw [if_pos hv]
    · rw [if_neg hv]

/-- Witness for C10: completing a transfer at the mid-transfer example
session leaves its stored chunk list equal to the sorted list. -/
theorem reconstructData_sorts_in_place_witness :
    (completeTransfer rxExample).chunks = sortChunks rxExample.chunks :=
  reconstructData_sorts_in_place.2.2.1 rxExample ⟨5, "abc"⟩ (by decide)
    (by decide)

/-! ## C1: the full round trip -/

theorem sorted_perm_eq :
    ∀ (l₂ l₁ : List TransferChunk), l₁.Perm l₂ → l₁.Sorted seqLE →
      l₂.Pairwise seqLT → l₁ = l₂ := by
  intro l₂
  induction l₂ with
  | nil =>
      intro l₁ hp _ _
      exact hp.eq_nil
  | cons b t ih =>
      intro l₁ hp hs hpw
      cases l₁ with
      | nil =>
          have := hp.length_eq
          simp at this
      | cons a t₁ =>
          have hab : a = b := by
            by_contra hne
            have ha : a ∈ b :: t := hp.subset (List.mem_cons_self a t₁)
            have hb : b ∈ a :: t₁ := hp.symm.subset (List.mem_cons_self b t)
            have ha' : a ∈ t := by
              rcases List.mem_cons.mp ha with h | h
              · exact absurd h hne
              · exact h
            have hb' : b ∈ t₁ := by
              rcases List.mem_cons.mp hb with h | h
              · exact absurd h.symm hne
              · exact h
            have h1 : seqLE a b := (List.sorted_cons.mp hs).1 b hb'
            have h2 : seqLT b a := (List.pairwise_cons.mp hpw).1 a ha'
            unfold seqLE at h1
            unfold seqLT at h2
            omega
          subst hab
          have hp' : t₁.Perm t := hp.cons_inv
          rw [ih t₁ hp' (List.sorted_cons.mp hs).2 (List.pairwise_cons.mp hpw).2]

theorem senderChunkList_pairwise (bs : List Nat) (s : Nat) :
    (senderChunkList bs s).Pairwise seqLT := by
  unfold senderChunkList
  rw [List.pairwise_map]
  have h := List.pairwise_lt_range (chunkData bs s).length
  rw [← List.enum_map_fst (chunkData bs s), List.pairwise_map] at h
  exact h.imp (fun hab => hab)

theorem sortChunks_eq_of_perm {l target : List TransferChunk}
    (hp : l.Perm target) (ht : target.Pairwise seqLT) :
    sortChunks l = target :=
  sorted_perm_eq target _ ((List.perm_insertionSort seqLE l).trans hp)
    (List.sorted_insertionSort seqLE l) ht

theorem senderChunkList_map_data (bs : List Nat) (s : Nat) :
    (senderChunkList bs s).map TransferChunk.data = chunkData bs s := by
  unfold senderChunkList
  rw [List.map_map]
  have hfun : (TransferChunk.data ∘
      fun p : Nat × String => (⟨p.1, p.2⟩ : TransferChunk)) = Prod.snd := rfl
  rw [hfun, List.enum_map_snd]

/-- C1: reassembling any permutation of the sequence-numbered chunk list
produced by `chunkData` — sorting by sequence, decoding each base64
payload, concatenating — yields exactly the original buffer, and
verifying the result against the buffer's own digest returns true. -/
theorem reassemble_roundtrip (bs : List Nat) (s : Nat)
    (cs : List TransferChunk) (hs : 1 ≤ s) (hb : ∀ b ∈ bs, b < 256)
    (hperm : cs.Perm (senderChunkList bs s)) :
    (reconstructData cs).2 = some bs ∧
    verifyIntegrity bs (calculateHash bs) = true := by
  have hs' : s ≠ 0 := by omega
  constructor
  · have hsort : sortChunks cs = senderChunkList bs s :=
      sortChunks_eq_of_perm hperm (senderChunkList_pairwise bs s)
    unfold reconstructData
    dsimp only []
    rw [hsort, senderChunkList_map_data]
    unfold chunkData
    rw [atobAll_encode _ (fun c hc b hbb => hb b (chunkBytes_mem_mem hs' hc hbb))]
    rw [Option.map_some', chunkBytes_flatten hs']
  · unfold verifyIntegrity
    exact beq_self_eq_true _

/-- Witness for C1: the buffer `Hi` (bytes 72, 105) chunked at size 1
gives chunks `SA==` and `aQ==`; reassembling them delivered in reverse
order returns the buffer, which verifies against its own digest. -/
theorem reassemble_roundtrip_witness :
    (reconstructData [⟨1, "aQ=="⟩, ⟨0, "SA=="⟩]).2 = some [72, 105] ∧
    verifyIntegrity [72, 105] (calculateHash [72, 105]) = true :=
  reassemble_roundtrip [72, 105] 1 [⟨1, "aQ=="⟩, ⟨0, "SA=="⟩] (by decide)
    (by decide) (by decide)

end QrXfer
